import Mathlib

/-!
Verification development for `src/flashcard_generator.py`.

Modelling conventions:
* Python strings are `List Char`; `str.strip()` is `pyStrip`.
* Font sizes (Python floats used only for ordering and one multiplication
  by `1.2`) are rationals; `1.2` is the exact rational `6/5`.
* The `while` loop of `chunk_text` is embedded as a step-bounded function
  (`chunkLoopFuel`): `none` means the given step bound was not enough for
  the loop to finish, so a loop that never terminates yields `none` for
  every bound.
* The external card generation service (one Claude API call plus the JSON
  extraction of lines 167-176) is abstracted as a function from the chunk
  index to `Option (List Json)`: `some cards` is a successfully parsed
  JSON array, `none` a parse failure (the `continue` branches).
-/

/-- Whitespace characters removed by Python `str.strip()` (ASCII range). -/
def isPySpace (c : Char) : Bool :=
  c = ' ' || c = '\t' || c = '\n' || c = '\r' || c = '\x0b' || c = '\x0c'

/-- Python `s.strip()`: remove leading and trailing whitespace. -/
def pyStrip (l : List Char) : List Char :=
  ((l.dropWhile isPySpace).reverse.dropWhile isPySpace).reverse

/-- The `while start < len(text)` loop of `chunk_text`
(`src/flashcard_generator.py` lines 135-142), run for at most a given
number of iterations.  Each iteration emits `text[start : start + max_chars]`
and sets `start = (start + max_chars) - overlap`; `none` means the bound was
exhausted before the loop condition became false. -/
def chunkLoopFuel (text : List Char) (max_chars overlap : Nat) :
    Nat → Nat → Option (List (List Char))
  | 0, _ => none
  | fuel + 1, start =>
    if start < text.length then
      match chunkLoopFuel text max_chars overlap fuel (start + max_chars - overlap) with
      | none => none
      | some rest => some (((text.drop start).take max_chars) :: rest)
    else
      some []

/-- `chunk_text(text, max_chars, overlap)` (lines 130-142): texts of length
at most `max_chars` are returned unchanged as a singleton; longer texts go
through the sliding-window loop, run with the given step bound. -/
def chunk_text (text : List Char) (max_chars overlap fuel : Nat) :
    Option (List (List Char)) :=
  if text.length ≤ max_chars then some [text]
  else chunkLoopFuel text max_chars overlap fuel 0

/-- A text span as reported by the document reader: its text and font size
(`span["text"]`, `span["size"]`). -/
structure Span where
  text : List Char
  size : ℚ
deriving DecidableEq

/-- One page of the document: its raw text (`page.get_text()`) and its
spans in reading order. -/
structure Page where
  text : List Char
  spans : List Span
deriving DecidableEq

/-- One outline entry of `doc.get_toc()`: `(level, title, page_num)` with a
1-indexed target page. -/
structure TocEntry where
  level : Int
  title : List Char
  page_num : Int
deriving DecidableEq

/-- The document as exposed by the reader: ordered pages and the outline. -/
structure Document where
  pages : List Page
  toc : List TocEntry
deriving DecidableEq

/-- A titled section of document text. -/
structure Section where
  title : List Char
  text : List Char
deriving DecidableEq

/-- The page-text accumulation `for pg in range(a, b): text += doc[pg].get_text()`
over the 0-indexed page interval `[a, b)`. -/
def pagesTextRange (doc : Document) (a b : Nat) : List Char :=
  (((doc.pages.drop a).take (b - a)).map Page.text).flatten

/-- The body of the `for i, (level, title, page_num) in enumerate(toc)` loop
of `extract_sections_from_toc` (lines 43-57): entry `i` covers the 0-indexed
pages from `page_num - 1` up to the next entry's `page_num - 1` (the page
count for the last entry), the start clamped to `≥ 0` and the end to the
page count; an entry whose concatenated page text strips to empty yields
nothing, a kept one carries a stripped title. -/
def tocEntrySection (doc : Document) (p : Nat × TocEntry) : Option Section :=
  let start_page : Int := p.2.page_num - 1
  let end_page : Int :=
    match doc.toc[p.1 + 1]? with
    | some next => next.page_num - 1
    | none => (doc.pages.length : Int)
  let text := pyStrip (pagesTextRange doc (max 0 start_page).toNat
    (min end_page (doc.pages.length : Int)).toNat)
  if text = [] then none
  else some ⟨pyStrip p.2.title, text⟩

/-- `extract_sections_from_toc` (`src/flashcard_generator.py` lines 36-59). -/
def extract_sections_from_toc (doc : Document) : List Section :=
  if doc.toc.isEmpty then []
  else doc.toc.enum.filterMap (tocEntrySection doc)

/-- Span collection of `extract_sections_by_font_size` (lines 64-71): all
spans of all pages, in page order then in-page order, keeping only spans
whose stripped text is non-empty. -/
def collectSpans (doc : Document) : List Span :=
  (doc.pages.map fun p => p.spans.filter fun s => !(pyStrip s.text).isEmpty).flatten

/-- Median font size (lines 77-79): sort the sizes ascending and take the
element at index `len(sizes) // 2` (the call site guarantees a non-empty
list, so the default is never used). -/
def medianSize (sizes : List ℚ) : ℚ :=
  (List.insertionSort (· ≤ ·) sizes).getD (sizes.length / 2) 0

/-- The accumulation pass of `extract_sections_by_font_size` (lines 82-105):
a span whose size reaches the threshold and whose stripped text is shorter
than 200 characters closes the current section (emitted only if the
accumulated body is non-empty) and opens a new one titled by the heading
text; any other span appends its stripped text as one body line.  The final
accumulation is emitted if non-empty. -/
def fontLoop (threshold : ℚ) : List Span → List Char → List (List Char) → List Section
  | [], title, body =>
    if body.isEmpty then [] else [⟨title, List.intercalate ['\n'] body⟩]
  | span :: rest, title, body =>
    let t := pyStrip span.text
    if threshold ≤ span.size ∧ t.length < 200 then
      (if body.isEmpty then [] else [⟨title, List.intercalate ['\n'] body⟩])
        ++ fontLoop threshold rest t []
    else
      fontLoop threshold rest title (body ++ [t])

/-- `extract_sections_by_font_size` (lines 62-107): empty if there are no
non-blank spans, otherwise the accumulation pass with threshold
`median * 1.2` and the bootstrap title `"Introduction"`. -/
def extract_sections_by_font_size (doc : Document) : List Section :=
  let all_spans := collectSpans doc
  if all_spans.isEmpty then []
  else
    let heading_threshold := medianSize (all_spans.map Span.size) * (6 / 5)
    fontLoop heading_threshold all_spans ("Introduction".toList) []

/-- `extract_sections` (lines 110-127): the TOC strategy first, then the
font-size heuristic, and as a last resort a single "Full Document" section
holding the stripped concatenation of every page's text. -/
def extract_sections (doc : Document) : List Section :=
  let sections := extract_sections_from_toc doc
  let sections2 := if sections.isEmpty then extract_sections_by_font_size doc else sections
  if sections2.isEmpty then
    [⟨"Full Document".toList, pyStrip ((doc.pages.map Page.text).flatten)⟩]
  else sections2

/-- A body line that contains a non-whitespace character. -/
def goodLine (b : List Char) : Prop := ∃ c ∈ b, isPySpace c = false

/-- The concrete 12-page document of the C4 scenario: page texts
`a`..`l`, outline entries targeting 1-indexed pages 1, 5, 10. -/
def doc12 : Document :=
  ⟨[⟨['a'], []⟩, ⟨['b'], []⟩, ⟨['c'], []⟩, ⟨['d'], []⟩, ⟨['e'], []⟩, ⟨['f'], []⟩,
    ⟨['g'], []⟩, ⟨['h'], []⟩, ⟨['i'], []⟩, ⟨['j'], []⟩, ⟨['k'], []⟩, ⟨['l'], []⟩],
   [⟨1, ['A'], 1⟩, ⟨1, ['B'], 5⟩, ⟨1, ['C'], 10⟩]⟩

/-- The concrete single-page document of the C6 scenario: eight non-blank
spans, font sizes [10, 10, 10, 20, 10, 10, 20, 10], texts a..h, all shorter
than 200 characters. -/
def doc6 : Document :=
  ⟨[⟨[], [⟨['a'], 10⟩, ⟨['b'], 10⟩, ⟨['c'], 10⟩, ⟨['d'], 20⟩,
          ⟨['e'], 10⟩, ⟨['f'], 10⟩, ⟨['g'], 20⟩, ⟨['h'], 10⟩]⟩], []⟩

/-- A parsed JSON value, as produced by `json.loads`. -/
inductive Json where
  | null : Json
  | bool (b : Bool) : Json
  | num (q : ℚ) : Json
  | str (s : List Char) : Json
  | arr (elems : List Json) : Json
  | obj (fields : List (List Char × Json)) : Json

/-- Python truthiness of the `max_cards: int | None` parameter: the guard
`if max_cards:` is taken only for a non-`None`, non-zero value. -/
def mcTruthy : Option Int → Bool
  | none => false
  | some n => n != 0

/-- The `for i, chunk in enumerate(chunks)` loop of `generate_flashcards`
(`src/flashcard_generator.py` lines 150-180).  The external service call
together with the JSON extraction of lines 160-176 is abstracted by `svc`:
`svc i = some cards` is chunk `i`'s successfully parsed JSON array
(extended into the accumulator unvalidated), `none` a parse failure (the
chunk contributes nothing).  Returns the final accumulator and the log of
calls actually issued, each paired with `max_cards - len(all_cards)` as
computed before that call (recorded as 0 when no budget is configured,
where the source computes no remainder).  With a truthy budget whose
remainder is ≤ 0 the loop breaks before calling the service. -/
def genLoop (svc : Nat → Option (List Json)) (max_cards : Option Int) :
    List (List Char) → Nat → List Json → List Json × List (Nat × Int)
  | [], _, _all_cards => (_all_cards, [])
  | _chunk :: rest, i, all_cards =>
    if mcTruthy max_cards ∧ max_cards.getD 0 - (all_cards.length : Int) ≤ 0 then
      (all_cards, [])
    else
      let acc := match svc i with
        | none => all_cards
        | some cards => all_cards ++ cards
      let r := genLoop svc max_cards rest (i + 1) acc
      (r.1, (i, max_cards.getD 0 - (all_cards.length : Int)) :: r.2)

/-- `generate_flashcards` (lines 145-181): chunk the section text with the
module constants `MAX_SECTION_CHARS = 80000` and `CHUNK_OVERLAP = 2000` (a
valid configuration, for which the step bound `length + 1` always
suffices), then run the per-chunk loop from an empty accumulator. -/
def generate_flashcards (svc : Nat → Option (List Json)) (max_cards : Option Int)
    (text : List Char) : List Json × List (Nat × Int) :=
  genLoop svc max_cards ((chunk_text text 80000 2000 (text.length + 1)).getD []) 0 []

/-- A Python exception raised during TSV serialization. -/
inductive PyError where
  | keyError (k : List Char) : PyError
  | typeError : PyError

/-- Python `card["front"]`: succeeds only on an object carrying the key
(first occurrence); a missing key raises `KeyError(key)`, subscripting a
non-object with a string key raises `TypeError`. -/
def getItem (j : Json) (k : List Char) : Except PyError Json :=
  match j with
  | .obj fields =>
    match fields.lookup k with
    | some v => .ok v
    | none => .error (.keyError k)
  | _ => .error .typeError

/-- Python `card.get("tag", default)` (never raises on an object; the
preceding subscripts have already succeeded when it is evaluated). -/
def getItemD (j : Json) (k : List Char) (d : Json) : Json :=
  match j with
  | .obj fields => (fields.lookup k).getD d
  | _ => d

/-- `write_tsv` (lines 191-197): a header row, then one row
`[card["front"], card["back"], card.get("tag", "")]` per card; the first
card lacking a key aborts the write with that exception. -/
def write_tsv (cards : List Json) : Except PyError (List (List Json)) := do
  let rows ← cards.mapM fun card => do
    let front ← getItem card ("front".toList)
    let back ← getItem card ("back".toList)
    pure [front, back, getItemD card ("tag".toList) (Json.str [])]
  pure ((["Front".toList, "Back".toList, "Tags".toList].map Json.str) :: rows)

theorem chunkLoopFuel_stuck (text : List Char) (m : Nat) (hlen : 0 < text.length) :
    ∀ fuel, chunkLoopFuel text m m fuel 0 = none := by
  intro fuel
  induction fuel with
  | zero => rfl
  | succ n ih =>
    simp only [chunkLoopFuel, hlen, if_pos]
    have hstep : 0 + m - m = 0 := by omega
    rw [hstep, ih]

/-- C1 helper: for a text longer than `max_chars` and `overlap = max_chars`,
no iteration bound makes `chunk_text` finish, and no error value is ever
produced: the Python loop runs forever without raising anything. -/
theorem chunk_text_diverges (text : List Char) (m fuel : Nat)
    (h : m < text.length) : chunk_text text m m fuel = none := by
  unfold chunk_text
  rw [if_neg (by omega)]
  exact chunkLoopFuel_stuck text m (by omega) fuel

/-- C1: on `text = "aaa"`, `max_chars = 2`, `overlap = 2` (so
`overlap ≥ max_chars`), `chunk_text` does not raise a configuration error
before processing: it enters the sliding-window loop with a non-positive
stride and never terminates — every step bound is exhausted (`none`),
and the model has no error outcome because the source checks nothing. -/
theorem chunk_text_no_config_error_loops_forever :
    ∀ fuel, chunk_text ("aaa".toList) 2 2 fuel = none := by
  intro fuel
  exact chunk_text_diverges _ 2 fuel (by decide)

theorem chunkLoopFuel_chunk_length (text : List Char) (m o : Nat) :
    ∀ fuel start cs, chunkLoopFuel text m o fuel start = some cs →
      ∀ c ∈ cs, c.length ≤ m := by
  intro fuel
  induction fuel with
  | zero => intro start cs h; exact absurd h (by simp [chunkLoopFuel])
  | succ n ih =>
    intro start cs h
    simp only [chunkLoopFuel] at h
    by_cases hs : start < text.length
    · rw [if_pos hs] at h
      rcases h' : chunkLoopFuel text m o n (start + m - o) with _ | rest
      · rw [h'] at h; exact absurd h (by simp)
      · rw [h'] at h
        simp only [Option.some.injEq] at h
        subst h
        intro c hc
        rcases List.mem_cons.mp hc with rfl | hc
        · simp only [List.length_take]
          omega
        · exact ih _ _ h' c hc
    · rw [if_neg hs] at h
      simp only [Option.some.injEq] at h
      subst h
      intro c hc
      exact absurd hc (List.not_mem_nil c)

theorem chunkLoopFuel_flatten_drop (text : List Char) (m o : Nat) (ho : o < m) :
    ∀ fuel start cs, chunkLoopFuel text m o fuel start = some cs →
      (cs.map (List.drop o)).flatten = text.drop (start + o) := by
  intro fuel
  induction fuel with
  | zero => intro start cs h; exact absurd h (by simp [chunkLoopFuel])
  | succ n ih =>
    intro start cs h
    simp only [chunkLoopFuel] at h
    by_cases hs : start < text.length
    · rw [if_pos hs] at h
      rcases h' : chunkLoopFuel text m o n (start + m - o) with _ | rest
      · rw [h'] at h; exact absurd h (by simp)
      · rw [h'] at h
        simp only [Option.some.injEq] at h
        subst h
        have hrest : (rest.map (List.drop o)).flatten
            = text.drop (start + m - o + o) := ih _ _ h'
        have hso : start + m - o + o = start + m := by omega
        rw [hso] at hrest
        simp only [List.map_cons, List.flatten_cons, hrest]
        have hdt : List.drop o ((text.drop start).take m)
            = (text.drop (start + o)).take (m - o) := by
          rw [List.drop_take, List.drop_drop]
        rw [hdt]
        have hdd : text.drop (start + m) = List.drop (m - o) (text.drop (start + o)) := by
          rw [List.drop_drop]
          congr 1
          omega
        rw [hdd, List.take_append_drop]
    · rw [if_neg hs] at h
      simp only [Option.some.injEq] at h
      subst h
      simp only [List.map_nil, List.flatten_nil]
      exact (List.drop_eq_nil_of_le (by omega)).symm

theorem chunkLoopFuel_total (text : List Char) (m o : Nat) (ho : o < m) :
    ∀ fuel start, text.length - start < fuel →
      ∃ cs, chunkLoopFuel text m o fuel start = some cs := by
  intro fuel
  induction fuel with
  | zero => intro start h; omega
  | succ n ih =>
    intro start hlt
    simp only [chunkLoopFuel]
    by_cases hs : start < text.length
    · rw [if_pos hs]
      obtain ⟨cs, hcs⟩ := ih (start + m - o) (by omega)
      exact ⟨_, by rw [hcs]⟩
    · rw [if_neg hs]
      exact ⟨[], rfl⟩

/-- C2: for every text and every valid configuration `overlap < max_chars`,
`chunk_text` terminates (the bound `length + 1` suffices) and its result
reconstructs the text exactly — the first chunk followed by every later
chunk stripped of its first `overlap` characters — every chunk has length
at most `max_chars`, and a text of length at most `max_chars` yields the
singleton `[text]`. -/
theorem chunk_text_reconstructs (text : List Char) (m o : Nat) (ho : o < m) :
    ∃ cs, chunk_text text m o (text.length + 1) = some cs
      ∧ cs.headD [] ++ ((cs.tail).map (List.drop o)).flatten = text
      ∧ (∀ c ∈ cs, c.length ≤ m)
      ∧ (text.length ≤ m → cs = [text]) := by
  by_cases hshort : text.length ≤ m
  · refine ⟨[text], ?_, ?_, ?_, fun _ => rfl⟩
    · simp [chunk_text, hshort]
    · simp
    · intro c hc
      rcases List.mem_cons.mp hc with rfl | hc
      · exact hshort
      · exact absurd hc (List.not_mem_nil c)
  · obtain ⟨cs, hcs⟩ := chunkLoopFuel_total text m o ho (text.length + 1) 0 (by omega)
    refine ⟨cs, ?_, ?_, chunkLoopFuel_chunk_length text m o _ _ _ hcs,
      fun hc => absurd hc hshort⟩
    · simp [chunk_text, hshort, hcs]
    · have hpos : 0 < text.length := by omega
      rcases fuel_eq : text.length + 1 with _ | n
      · omega
      · rw [fuel_eq] at hcs
        simp only [chunkLoopFuel, if_pos hpos] at hcs
        rcases h' : chunkLoopFuel text m o n (0 + m - o) with _ | rest
        · rw [h'] at hcs; exact absurd hcs (by simp)
        · rw [h'] at hcs
          simp only [Option.some.injEq] at hcs
          subst hcs
          have hrest : (rest.map (List.drop o)).flatten
              = text.drop (0 + m - o + o) := chunkLoopFuel_flatten_drop text m o ho _ _ _ h'
          have hso : 0 + m - o + o = m := by omega
          rw [hso] at hrest
          simp only [List.headD_cons, List.tail_cons, hrest, List.drop_zero]
          exact List.take_append_drop m text

/-- C2 witness: the theorem instantiated at `text = "abcdefghij"`,
`max_chars = 5`, `overlap = 2`. -/
theorem chunk_text_reconstructs_witness :
    (2 : Nat) < 5 ∧
    ∃ cs, chunk_text ("abcdefghij".toList) 5 2 (("abcdefghij".toList).length + 1) = some cs
      ∧ cs.headD [] ++ ((cs.tail).map (List.drop 2)).flatten = "abcdefghij".toList
      ∧ (∀ c ∈ cs, c.length ≤ 5)
      ∧ (("abcdefghij".toList).length ≤ 5 → cs = ["abcdefghij".toList]) :=
  ⟨by decide, chunk_text_reconstructs ("abcdefghij".toList) 5 2 (by decide)⟩

theorem chunkLoopFuel_getD (text : List Char) (m o : Nat) (ho : o < m) :
    ∀ fuel start cs, chunkLoopFuel text m o fuel start = some cs →
      ∀ i < cs.length, cs.getD i [] = (text.drop (start + i * (m - o))).take m := by
  intro fuel
  induction fuel with
  | zero => intro start cs h; exact absurd h (by simp [chunkLoopFuel])
  | succ n ih =>
    intro start cs h
    simp only [chunkLoopFuel] at h
    by_cases hs : start < text.length
    · rw [if_pos hs] at h
      rcases h' : chunkLoopFuel text m o n (start + m - o) with _ | rest
      · rw [h'] at h; exact absurd h (by simp)
      · rw [h'] at h
        simp only [Option.some.injEq] at h
        subst h
        intro i hi
        cases i with
        | zero => simp
        | succ j =>
          simp only [List.getD_cons_succ]
          have hj : j < rest.length := by
            simpa using Nat.lt_of_succ_lt_succ hi
          rw [ih _ _ h' j hj]
          congr 2
          rw [Nat.succ_mul]
          omega
    · rw [if_neg hs] at h
      simp only [Option.some.injEq] at h
      subst h
      intro i hi
      exact absurd hi (by simp)

/-- C7 (amended): for a valid configuration `overlap < max_chars`, whenever a
chunk produced by `chunk_text` has full length `max_chars`, it overlaps the
next chunk by exactly `overlap` characters: the next chunk has at least
`overlap` characters and its first `overlap` characters equal the last
`overlap` characters of the full chunk.  (Chunks that already reach the end
of the text can be shorter than `max_chars` and may overlap the next chunk
by fewer characters — not only at the final pair, see the counterexample.) -/
theorem chunk_text_overlap (text : List Char) (m o fuel : Nat) (ho : o < m)
    (cs : List (List Char)) (h : chunk_text text m o fuel = some cs)
    (i : Nat) (hi : i + 1 < cs.length)
    (hfull : (cs.getD i []).length = m) :
    o ≤ (cs.getD (i + 1) []).length ∧
    (cs.getD i []).drop (m - o) = (cs.getD (i + 1) []).take o := by
  unfold chunk_text at h
  by_cases hshort : text.length ≤ m
  · rw [if_pos hshort] at h
    simp only [Option.some.injEq] at h
    subst h
    simp at hi
  · rw [if_neg hshort] at h
    have hgi := chunkLoopFuel_getD text m o ho fuel 0 cs h i (by omega)
    have hgi1 := chunkLoopFuel_getD text m o ho fuel 0 cs h (i + 1) hi
    simp only [Nat.zero_add] at hgi hgi1
    have hlen : (cs.getD i []).length = min m (text.length - i * (m - o)) := by
      rw [hgi]
      simp [List.length_take]
    have hreach : i * (m - o) + m ≤ text.length := by
      rw [hfull] at hlen
      omega
    have hsucc : (i + 1) * (m - o) = i * (m - o) + (m - o) := by ring
    constructor
    · rw [hgi1, hsucc]
      simp only [List.length_take, List.length_drop]
      omega
    · rw [hgi, hgi1, hsucc]
      rw [List.drop_take, List.drop_drop]
      have hmo : m - (m - o) = o := by omega
      rw [hmo]
      rw [List.take_take]
      have hoo : min o m = o := by omega
      rw [hoo]

/-- C7 witness: the amended theorem instantiated at `text = "abcdefghij"`,
`max_chars = 5`, `overlap = 2`, chunk index `0` (a full-length chunk). -/
theorem chunk_text_overlap_witness :
    ((2 : Nat) < 5 ∧
      chunk_text ("abcdefghij".toList) 5 2 11
        = some ["abcde".toList, "defgh".toList, "ghij".toList, "j".toList] ∧
      0 + 1 < 4 ∧
      (( ["abcde".toList, "defgh".toList, "ghij".toList, "j".toList].getD 0 []).length = 5)) ∧
    2 ≤ (["abcde".toList, "defgh".toList, "ghij".toList, "j".toList].getD (0 + 1) []).length ∧
    (["abcde".toList, "defgh".toList, "ghij".toList, "j".toList].getD 0 []).drop (5 - 2)
      = (["abcde".toList, "defgh".toList, "ghij".toList, "j".toList].getD (0 + 1) []).take 2 :=
  ⟨⟨by decide, by decide, by decide, by decide⟩,
    chunk_text_overlap ("abcdefghij".toList) 5 2 11 (by decide) _ (by decide) 0
      (by decide) (by decide)⟩

/-- C7 counterexample: with `text = "abcdefghij"` (length 10),
`max_chars = 9`, `overlap = 8`, the loop emits ten chunks; the consecutive
pair at indices 2 and 3 involves neither the final chunk (index 9), yet the
two chunks share only 7 characters of the text, not `overlap = 8`: chunk 3
is shorter than 8 characters, and the last 8 characters of chunk 2 differ
from the first 8 characters of chunk 3. -/
theorem chunk_text_overlap_counterexample :
    ((chunk_text ("abcdefghij".toList) 9 8 11).getD []).length = 10 ∧
    (((chunk_text ("abcdefghij".toList) 9 8 11).getD []).getD 2 []).length = 8 ∧
    (((chunk_text ("abcdefghij".toList) 9 8 11).getD []).getD 3 []).length = 7 ∧
    ¬ (8 ≤ (((chunk_text ("abcdefghij".toList) 9 8 11).getD []).getD 3 []).length) ∧
    (((chunk_text ("abcdefghij".toList) 9 8 11).getD []).getD 2 []).drop
        ((((chunk_text ("abcdefghij".toList) 9 8 11).getD []).getD 2 []).length - 8)
      ≠ (((chunk_text ("abcdefghij".toList) 9 8 11).getD []).getD 3 []).take 8 := by
  decide

theorem pyStrip_eq_nil_iff (l : List Char) :
    pyStrip l = [] ↔ ∀ c ∈ l, isPySpace c = true := by
  unfold pyStrip
  rw [List.reverse_eq_nil_iff, List.dropWhile_eq_nil_iff]
  constructor
  · intro h c hc
    have hsplit := List.takeWhile_append_dropWhile isPySpace l
    rw [← hsplit] at hc
    rcases List.mem_append.mp hc with h1 | h2
    · exact List.mem_takeWhile_imp h1
    · exact h c (List.mem_reverse.mpr h2)
  · intro h c hc
    exact h c ((List.dropWhile_suffix isPySpace).subset (List.mem_reverse.mp hc))

theorem dropWhile_eq_self_of_prefix_dropWhile {p : Char → Bool} {l x : List Char}
    (h : x <+: l.dropWhile p) : x.dropWhile p = x := by
  rcases hx : x with _ | ⟨a, t⟩
  · rfl
  · subst hx
    obtain ⟨s, hs⟩ := h
    have hne : l.dropWhile p ≠ [] := by
      rw [← hs]; simp
    have hh : (l.dropWhile p).head? = some a := by
      rw [← hs]; rfl
    have hh2 : (l.dropWhile p).head? = some ((l.dropWhile p).head hne) :=
      List.head?_eq_head hne
    have ha : (l.dropWhile p).head hne = a := by
      rw [hh] at hh2
      exact (Option.some_inj.mp hh2).symm
    have hna : p a = false := by
      have := List.head_dropWhile_not p l hne
      rwa [ha] at this
    simp [List.dropWhile_cons, hna]

theorem pyStrip_idem (l : List Char) : pyStrip (pyStrip l) = pyStrip l := by
  have hsuf : (pyStrip l).reverse <:+ (l.dropWhile isPySpace).reverse := by
    unfold pyStrip
    rw [List.reverse_reverse]
    exact List.dropWhile_suffix isPySpace
  have hpre : pyStrip l <+: l.dropWhile isPySpace := by
    have := List.reverse_prefix.mpr hsuf
    simpa using this
  have h1 : (pyStrip l).dropWhile isPySpace = pyStrip l :=
    dropWhile_eq_self_of_prefix_dropWhile hpre
  have h2 : (pyStrip l).reverse.dropWhile isPySpace = (pyStrip l).reverse := by
    unfold pyStrip
    rw [List.reverse_reverse]
    exact List.dropWhile_idempotent _ _
  show ((((pyStrip l).dropWhile isPySpace).reverse).dropWhile isPySpace).reverse = pyStrip l
  rw [h1, h2, List.reverse_reverse]

theorem mem_intercalate_of_mem (sep : List Char) (body : List (List Char))
    (b : List Char) (hb : b ∈ body) (c : Char) (hc : c ∈ b) :
    c ∈ List.intercalate sep body := by
  induction body with
  | nil => cases hb
  | cons x xs ih =>
    rcases List.mem_cons.mp hb with rfl | hb2
    · cases xs with
      | nil => simpa [List.intercalate, List.intersperse] using hc
      | cons y ys =>
        simp only [List.intercalate, List.intersperse, List.flatten_cons]
        exact List.mem_append.mpr (Or.inl hc)
    · cases xs with
      | nil => cases hb2
      | cons y ys =>
        have hrec := ih hb2
        simp only [List.intercalate] at hrec ⊢
        simp only [List.intersperse, List.flatten_cons]
        exact List.mem_append.mpr (Or.inr (List.mem_append.mpr (Or.inr hrec)))

theorem goodLine_of_pyStrip_ne_nil (t : List Char) (h : pyStrip t ≠ []) :
    goodLine (pyStrip t) := by
  have hnotall : ¬ ∀ c ∈ pyStrip t, isPySpace c = true := by
    intro hall
    have h2 : pyStrip (pyStrip t) = [] := (pyStrip_eq_nil_iff (pyStrip t)).mpr hall
    rw [pyStrip_idem] at h2
    exact h h2
  push_neg at hnotall
  obtain ⟨c, hc, hcs⟩ := hnotall
  exact ⟨c, hc, by simpa using hcs⟩

theorem pyStrip_intercalate_ne_nil (body : List (List Char)) (hne : body ≠ [])
    (hgood : ∀ b ∈ body, goodLine b) :
    pyStrip (List.intercalate ['\n'] body) ≠ [] := by
  rcases body with _ | ⟨b0, rest⟩
  · exact absurd rfl hne
  · obtain ⟨c, hc, hcs⟩ := hgood b0 (List.mem_cons_self b0 rest)
    intro hnil
    have hall := (pyStrip_eq_nil_iff _).mp hnil
    have hmem := mem_intercalate_of_mem ['\n'] (b0 :: rest) b0
      (List.mem_cons_self b0 rest) c hc
    have := hall c hmem
    rw [this] at hcs
    cases hcs

theorem fontLoop_text_nonempty (threshold : ℚ) :
    ∀ spans title body,
      (∀ s ∈ spans, pyStrip s.text ≠ []) →
      (∀ b ∈ body, goodLine b) →
      ∀ sec ∈ fontLoop threshold spans title body, pyStrip sec.text ≠ [] := by
  intro spans
  induction spans with
  | nil =>
    intro title body _ hbody sec hsec
    simp only [fontLoop] at hsec
    by_cases hb : body.isEmpty
    · rw [if_pos hb] at hsec
      exact absurd hsec (List.not_mem_nil sec)
    · rw [if_neg hb] at hsec
      rcases List.mem_cons.mp hsec with rfl | hfalse
      · exact pyStrip_intercalate_ne_nil body
          (by simpa [List.isEmpty_iff] using hb) hbody
      · exact absurd hfalse (List.not_mem_nil sec)
  | cons sp rest ih =>
    intro title body hspans hbody sec hsec
    have hsp : pyStrip sp.text ≠ [] := hspans sp (List.mem_cons_self sp rest)
    have hrest : ∀ s ∈ rest, pyStrip s.text ≠ [] :=
      fun s hs => hspans s (List.mem_cons_of_mem sp hs)
    simp only [fontLoop] at hsec
    by_cases hh : threshold ≤ sp.size ∧ (pyStrip sp.text).length < 200
    · rw [if_pos hh] at hsec
      rcases List.mem_append.mp hsec with hemit | hrec
      · by_cases hb : body.isEmpty
        · rw [if_pos hb] at hemit
          exact absurd hemit (List.not_mem_nil sec)
        · rw [if_neg hb] at hemit
          rcases List.mem_cons.mp hemit with rfl | hfalse
          · exact pyStrip_intercalate_ne_nil body
              (by simpa [List.isEmpty_iff] using hb) hbody
          · exact absurd hfalse (List.not_mem_nil sec)
      · exact ih _ [] hrest (by intro b hb; cases hb) sec hrec
    · rw [if_neg hh] at hsec
      refine ih title (body ++ [pyStrip sp.text]) hrest ?_ sec hsec
      intro b hb
      rcases List.mem_append.mp hb with hb1 | hb2
      · exact hbody b hb1
      · rcases List.mem_cons.mp hb2 with rfl | hfalse
        · exact goodLine_of_pyStrip_ne_nil sp.text hsp
        · exact absurd hfalse (List.not_mem_nil b)

theorem collectSpans_strip_ne_nil (doc : Document) :
    ∀ s ∈ collectSpans doc, pyStrip s.text ≠ [] := by
  intro s hs
  obtain ⟨l, hl, hsl⟩ := List.mem_flatten.mp hs
  obtain ⟨p, _, hp⟩ := List.mem_map.mp hl
  subst hp
  have := List.of_mem_filter hsl
  simpa [List.isEmpty_iff] using this

theorem extract_sections_by_font_size_text_nonempty (doc : Document) :
    ∀ sec ∈ extract_sections_by_font_size doc, pyStrip sec.text ≠ [] := by
  intro sec hsec
  simp only [extract_sections_by_font_size] at hsec
  by_cases he : (collectSpans doc).isEmpty
  · rw [if_pos he] at hsec
    exact absurd hsec (List.not_mem_nil sec)
  · rw [if_neg he] at hsec
    exact fontLoop_text_nonempty _ _ _ _ (collectSpans_strip_ne_nil doc)
      (by intro b hb; cases hb) sec hsec

theorem extract_sections_from_toc_text_nonempty (doc : Document) :
    ∀ sec ∈ extract_sections_from_toc doc, pyStrip sec.text ≠ [] := by
  intro sec hsec
  unfold extract_sections_from_toc at hsec
  by_cases he : doc.toc.isEmpty
  · rw [if_pos he] at hsec
    exact absurd hsec (List.not_mem_nil sec)
  · rw [if_neg he] at hsec
    obtain ⟨p, _, hfp⟩ := List.mem_filterMap.mp hsec
    unfold tocEntrySection at hfp
    dsimp only at hfp
    split at hfp
    · exact absurd hfp (by simp)
    · rename_i htext
      simp only [Option.some.injEq] at hfp
      subst hfp
      simpa [pyStrip_idem] using htext

/-- C3 (amended): every Section in the final output of `extract_sections`
has non-empty trimmed text, except at the terminal "Full Document"
fallback, which is the only place a Section with empty trimmed text can
appear (then the whole output is that single fallback Section). -/
theorem extract_sections_text_nonempty_or_fallback (doc : Document)
    (sec : Section) (hsec : sec ∈ extract_sections doc) :
    pyStrip sec.text ≠ [] ∨
      extract_sections doc
        = [⟨"Full Document".toList, pyStrip ((doc.pages.map Page.text).flatten)⟩] := by
  simp only [extract_sections] at hsec ⊢
  by_cases h1 : (extract_sections_from_toc doc).isEmpty
  · rw [if_pos h1] at hsec ⊢
    by_cases h2 : (extract_sections_by_font_size doc).isEmpty
    · rw [if_pos h2] at hsec ⊢
      exact Or.inr rfl
    · rw [if_neg h2] at hsec
      exact Or.inl (extract_sections_by_font_size_text_nonempty doc sec hsec)
  · rw [if_neg h1] at hsec ⊢
    rw [if_neg h1] at hsec
    exact Or.inl (extract_sections_from_toc_text_nonempty doc sec hsec)

/-- C3 counterexample: on the empty document both strategies are
inapplicable, the "Full Document" fallback fires, and the final output
contains a Section whose trimmed text is empty — refuting the claim that
every Section of the final output has non-empty trimmed text. -/
theorem extract_sections_empty_trimmed_counterexample :
    extract_sections ⟨[], []⟩ = [⟨"Full Document".toList, []⟩] ∧
    ∃ sec ∈ extract_sections ⟨[], []⟩, pyStrip sec.text = [] := by
  refine ⟨by decide, ⟨"Full Document".toList, []⟩, by decide, by decide⟩

/-- C3 witness: the amended theorem applied to the empty document and its
fallback Section. -/
theorem extract_sections_text_nonempty_or_fallback_witness :
    ((⟨"Full Document".toList, []⟩ : Section) ∈ extract_sections ⟨[], []⟩) ∧
    (pyStrip (⟨"Full Document".toList, []⟩ : Section).text ≠ [] ∨
      extract_sections ⟨[], []⟩
        = [⟨"Full Document".toList,
            pyStrip (((⟨[], []⟩ : Document)).pages.map Page.text).flatten⟩]) :=
  ⟨by decide,
    extract_sections_text_nonempty_or_fallback ⟨[], []⟩ _ (by decide)⟩

/-- C4 (amended): for every 12-page document whose outline is exactly three
entries with 1-indexed target pages [1, 5, 10] and whose three page-range
texts are non-blank, TOC segmentation yields exactly 3 sections whose texts
are the stripped concatenations of the pages in the 0-indexed half-open
ranges [0,4), [4,9), [9,12): entry i's range starts at `targetPage - 1` and
ends just before the next entry's `targetPage - 1` (the page count for the
final entry). -/
theorem extract_sections_from_toc_three_entries (doc : Document)
    (l1 l2 l3 : Int) (t1 t2 t3 : List Char)
    (htoc : doc.toc = [⟨l1, t1, 1⟩, ⟨l2, t2, 5⟩, ⟨l3, t3, 10⟩])
    (hlen : doc.pages.length = 12)
    (h1 : pyStrip (pagesTextRange doc 0 4) ≠ [])
    (h2 : pyStrip (pagesTextRange doc 4 9) ≠ [])
    (h3 : pyStrip (pagesTextRange doc 9 12) ≠ []) :
    extract_sections_from_toc doc
      = [⟨pyStrip t1, pyStrip (pagesTextRange doc 0 4)⟩,
         ⟨pyStrip t2, pyStrip (pagesTextRange doc 4 9)⟩,
         ⟨pyStrip t3, pyStrip (pagesTextRange doc 9 12)⟩] := by
  have e1 : tocEntrySection doc (0, ⟨l1, t1, 1⟩)
      = some ⟨pyStrip t1, pyStrip (pagesTextRange doc 0 4)⟩ := by
    unfold tocEntrySection
    rw [htoc, hlen]
    norm_num
    exact ⟨h1, rfl⟩
  have e2 : tocEntrySection doc (1, ⟨l2, t2, 5⟩)
      = some ⟨pyStrip t2, pyStrip (pagesTextRange doc 4 9)⟩ := by
    unfold tocEntrySection
    rw [htoc, hlen]
    norm_num
    exact ⟨h2, rfl⟩
  have e3 : tocEntrySection doc (2, ⟨l3, t3, 10⟩)
      = some ⟨pyStrip t3, pyStrip (pagesTextRange doc 9 12)⟩ := by
    unfold tocEntrySection
    rw [htoc, hlen]
    norm_num
    exact ⟨h3, rfl⟩
  unfold extract_sections_from_toc
  rw [htoc]
  rw [if_neg (by simp)]
  have henum : ([⟨l1, t1, 1⟩, ⟨l2, t2, 5⟩, ⟨l3, t3, 10⟩] : List TocEntry).enum
      = [(0, ⟨l1, t1, 1⟩), (1, ⟨l2, t2, 5⟩), (2, ⟨l3, t3, 10⟩)] := rfl
  rw [henum]
  simp only [List.filterMap_cons, List.filterMap_nil, e1, e2, e3]

/-- C4 counterexample: on `doc12` the three section texts are the page
concatenations over the 0-indexed ranges [0,4), [4,9), [9,12) — pages 0-3,
4-8, 9-11 — and differ from the claimed ranges: the second section is not
the concatenation of pages 5..9 (closed) nor 5..8, and the third is not
that of pages 10..11. -/
theorem extract_sections_from_toc_ranges_counterexample :
    extract_sections_from_toc doc12
      = [⟨['A'], "abcd".toList⟩, ⟨['B'], "efghi".toList⟩, ⟨['C'], "jkl".toList⟩] ∧
    "abcd".toList = pagesTextRange doc12 0 4 ∧
    "efghi".toList = pagesTextRange doc12 4 9 ∧
    "jkl".toList = pagesTextRange doc12 9 12 ∧
    "efghi".toList ≠ pagesTextRange doc12 5 10 ∧
    "efghi".toList ≠ pagesTextRange doc12 5 9 ∧
    "jkl".toList ≠ pagesTextRange doc12 10 12 := by
  decide

/-- C4 witness: the amended theorem applied to `doc12`. -/
theorem extract_sections_from_toc_three_entries_witness :
    (doc12.toc = [⟨1, ['A'], 1⟩, ⟨1, ['B'], 5⟩, ⟨1, ['C'], 10⟩]
      ∧ doc12.pages.length = 12
      ∧ pyStrip (pagesTextRange doc12 0 4) ≠ []
      ∧ pyStrip (pagesTextRange doc12 4 9) ≠ []
      ∧ pyStrip (pagesTextRange doc12 9 12) ≠ []) ∧
    extract_sections_from_toc doc12
      = [⟨pyStrip ['A'], pyStrip (pagesTextRange doc12 0 4)⟩,
         ⟨pyStrip ['B'], pyStrip (pagesTextRange doc12 4 9)⟩,
         ⟨pyStrip ['C'], pyStrip (pagesTextRange doc12 9 12)⟩] :=
  ⟨⟨by decide, by decide, by decide, by decide, by decide⟩,
    extract_sections_from_toc_three_entries doc12 1 1 1 ['A'] ['B'] ['C']
      (by decide) (by decide) (by decide) (by decide) (by decide)⟩

/-- C5 (amended): for a non-empty size list of even length `2k`, the median
used by the heading heuristic is the element at index `k = n / 2` of the
ascending sort — the UPPER of the two middle elements: it is at least the
lower-middle element and is always an actual member of the list (never an
average of the two middle values). -/
theorem medianSize_upper_middle (sizes : List ℚ) (k : Nat)
    (hk : 1 ≤ k) (hlen : sizes.length = 2 * k) :
    medianSize sizes = (List.insertionSort (· ≤ ·) sizes).getD k 0
    ∧ (List.insertionSort (· ≤ ·) sizes).getD (k - 1) 0 ≤ medianSize sizes
    ∧ medianSize sizes ∈ sizes := by
  have hslen : (List.insertionSort (· ≤ ·) sizes).length = 2 * k := by
    rw [List.length_insertionSort]; exact hlen
  have hidx : sizes.length / 2 = k := by omega
  have hk2 : k < (List.insertionSort (· ≤ ·) sizes).length := by omega
  have hk1 : k - 1 < (List.insertionSort (· ≤ ·) sizes).length := by omega
  have hmed : medianSize sizes = (List.insertionSort (· ≤ ·) sizes).getD k 0 := by
    unfold medianSize
    rw [hidx]
  refine ⟨hmed, ?_, ?_⟩
  · rw [hmed, List.getD_eq_getElem _ _ hk1, List.getD_eq_getElem _ _ hk2]
    have hlt : (⟨k - 1, hk1⟩ : Fin (List.insertionSort (· ≤ ·) sizes).length)
        < ⟨k, hk2⟩ := by
      simp only [Fin.mk_lt_mk]
      omega
    exact List.Sorted.rel_get_of_lt (List.sorted_insertionSort _ sizes) hlt
  · rw [hmed, List.getD_eq_getElem _ _ hk2]
    exact (List.perm_insertionSort _ sizes).mem_iff.mp (List.getElem_mem hk2)

/-- C5 witness: the amended theorem applied to the sizes [1, 2, 3, 4]
(`n = 4`, `k = 2`). -/
theorem medianSize_upper_middle_witness :
    ((1 : Nat) ≤ 2 ∧ ([(1 : ℚ), 2, 3, 4]).length = 2 * 2) ∧
    (medianSize [1, 2, 3, 4] = (List.insertionSort (· ≤ ·) [(1 : ℚ), 2, 3, 4]).getD 2 0
      ∧ (List.insertionSort (· ≤ ·) [(1 : ℚ), 2, 3, 4]).getD (2 - 1) 0
          ≤ medianSize [1, 2, 3, 4]
      ∧ medianSize [1, 2, 3, 4] ∈ [(1 : ℚ), 2, 3, 4]) :=
  ⟨⟨by decide, by decide⟩, medianSize_upper_middle [1, 2, 3, 4] 2 (by decide) (by decide)⟩

/-- C5 counterexample: for sizes [1, 2, 3, 4] the heuristic's median is 3,
the element at index `4 / 2 = 2` of the ascending sort, i.e. the UPPER of
the two middle elements; the lower-middle element (index 1) is 2 ≠ 3, so
the claim that index `floor(n/2)` is the lower-middle element is false. -/
theorem medianSize_lower_middle_counterexample :
    medianSize [1, 2, 3, 4] = 3
    ∧ (List.insertionSort (· ≤ ·) [(1 : ℚ), 2, 3, 4]).getD (4 / 2 - 1) 0 = 2
    ∧ medianSize [1, 2, 3, 4]
      ≠ (List.insertionSort (· ≤ ·) [(1 : ℚ), 2, 3, 4]).getD (4 / 2 - 1) 0 := by
  decide

/-- C6 (amended): on the eight spans with sizes [10,10,10,20,10,10,20,10]
the heuristic computes median 10 and threshold 12, classifies exactly the
two size-20 spans as headings, and yields exactly THREE sections with
bodies accumulated in span order: the pre-heading body under
"Introduction", the body between the two headings under the first heading
text, and the trailing body under the second heading text. -/
theorem extract_sections_by_font_size_example :
    medianSize ((collectSpans doc6).map Span.size) = 10
    ∧ medianSize ((collectSpans doc6).map Span.size) * (6 / 5) = 12
    ∧ extract_sections_by_font_size doc6
      = [⟨"Introduction".toList, ['a', '\n', 'b', '\n', 'c']⟩,
         ⟨['d'], ['e', '\n', 'f']⟩,
         ⟨['g'], ['h']⟩] := by
  have hmed : medianSize ((collectSpans doc6).map Span.size) = 10 := by decide
  have hthr : (10 : ℚ) * (6 / 5) = 12 := by norm_num
  refine ⟨hmed, by rw [hmed, hthr], ?_⟩
  show (if (collectSpans doc6).isEmpty then []
    else fontLoop (medianSize ((collectSpans doc6).map Span.size) * (6 / 5))
      (collectSpans doc6) ("Introduction".toList) []) = _
  rw [hmed, hthr, if_neg (by decide)]
  decide

/-- C6 counterexample: the C6 scenario yields three sections, not the
claimed two. -/
theorem extract_sections_by_font_size_count_counterexample :
    (extract_sections_by_font_size doc6).length = 3
    ∧ (extract_sections_by_font_size doc6).length ≠ 2 := by
  have hmed : medianSize ((collectSpans doc6).map Span.size) = 10 := by decide
  have hthr : (10 : ℚ) * (6 / 5) = 12 := by norm_num
  have hres : extract_sections_by_font_size doc6
      = [⟨"Introduction".toList, ['a', '\n', 'b', '\n', 'c']⟩,
         ⟨['d'], ['e', '\n', 'f']⟩, ⟨['g'], ['h']⟩] := by
    show (if (collectSpans doc6).isEmpty then []
      else fontLoop (medianSize ((collectSpans doc6).map Span.size) * (6 / 5))
        (collectSpans doc6) ("Introduction".toList) []) = _
    rw [hmed, hthr, if_neg (by decide)]
    decide
  rw [hres]
  exact ⟨rfl, by decide⟩

/-- C8: with a configured positive per-section budget `B`, the coordinator
checks the remaining budget before every service call — every logged call
happens with a strictly positive remainder — and from any loop state whose
accumulated cards already exhaust the budget, no call is issued for the
current chunk or any later chunk of the section (the loop stops at the
check, before calling the service). -/
theorem genLoop_budget_check (svc : Nat → Option (List Json)) (B : Int)
    (hB : 0 < B) :
    ∀ chunks i all_cards,
      (∀ p ∈ (genLoop svc (some B) chunks i all_cards).2, 0 < p.2)
      ∧ (B ≤ (all_cards.length : Int) →
          (genLoop svc (some B) chunks i all_cards).2 = []) := by
  intro chunks
  induction chunks with
  | nil =>
    intro i all_cards
    exact ⟨fun p hp => absurd hp (List.not_mem_nil p), fun _ => rfl⟩
  | cons c rest ih =>
    intro i all_cards
    have hT : mcTruthy (some B) = true := by
      simp only [mcTruthy, bne_iff_ne]
      omega
    constructor
    · intro p hp
      simp only [genLoop] at hp
      by_cases hstop : mcTruthy (some B) = true
          ∧ (some B).getD 0 - (all_cards.length : Int) ≤ 0
      · rw [if_pos hstop] at hp
        exact absurd hp (List.not_mem_nil p)
      · rw [if_neg hstop] at hp
        rcases List.mem_cons.mp hp with rfl | hp2
        · have : ¬ ((some B).getD 0 - (all_cards.length : Int) ≤ 0) := by
            intro hle
            exact hstop ⟨hT, hle⟩
          simpa using this
        · exact (ih (i + 1) _).1 p hp2
    · intro hle
      simp only [genLoop]
      rw [if_pos ⟨hT, by simpa using hle⟩]

/-- C8 witness: the theorem applied to a service always returning two
cards, budget 3, three pending chunks, and an accumulator already holding
three cards (the exhausted-budget case yields an empty call log). -/
theorem genLoop_budget_check_witness :
    (0 : Int) < 3 ∧
    ((∀ p ∈ (genLoop (fun _ => some [Json.null, Json.null]) (some 3)
        [['x'], ['y'], ['z']] 0 [Json.null, Json.null, Json.null]).2, 0 < p.2)
      ∧ ((3 : Int) ≤ (([Json.null, Json.null, Json.null] : List Json).length : Int) →
          (genLoop (fun _ => some [Json.null, Json.null]) (some 3)
            [['x'], ['y'], ['z']] 0 [Json.null, Json.null, Json.null]).2 = [])) :=
  ⟨by decide,
    genLoop_budget_check (fun _ => some [Json.null, Json.null]) 3 (by decide)
      [['x'], ['y'], ['z']] 0 [Json.null, Json.null, Json.null]⟩

theorem genLoop_zero_eq_none (svc : Nat → Option (List Json)) :
    ∀ chunks i all_cards,
      genLoop svc (some 0) chunks i all_cards = genLoop svc none chunks i all_cards
      ∧ (genLoop svc (some 0) chunks i all_cards).2.map Prod.fst
          = List.range' i chunks.length := by
  intro chunks
  induction chunks with
  | nil => intro i a; exact ⟨rfl, rfl⟩
  | cons c rest ih =>
    intro i a
    have h0 : ¬ (mcTruthy (some 0) = true ∧ (some 0).getD 0 - (a.length : Int) ≤ 0) := by
      simp [mcTruthy]
    have hn : ∀ b : List Json,
        ¬ (mcTruthy none = true ∧ (none : Option Int).getD 0 - (b.length : Int) ≤ 0) := by
      intro b
      simp [mcTruthy]
    constructor
    · simp only [genLoop]
      rw [if_neg h0, if_neg (hn a)]
      rcases hsvc : svc i with _ | cards
      · simp only [(ih (i + 1) a).1]
        rfl
      · simp only [(ih (i + 1) (a ++ cards)).1]
        rfl
    · simp only [genLoop]
      rw [if_neg h0]
      rcases hsvc : svc i with _ | cards
      · simp only [List.map_cons, (ih (i + 1) a).2, List.range'_succ]
        rfl
      · simp only [List.map_cons, (ih (i + 1) (a ++ cards)).2, List.range'_succ]
        rfl

/-- C9: a configured budget of zero is falsy for `if max_cards:`, so
`generate_flashcards` performs no budget enforcement at all: the run is
identical to the unlimited (no-budget) run, and a generation call is
issued for every chunk of the section, in order — rather than producing
zero cards. -/
theorem generate_flashcards_zero_budget (svc : Nat → Option (List Json))
    (text : List Char) :
    generate_flashcards svc (some 0) text = generate_flashcards svc none text
    ∧ (generate_flashcards svc (some 0) text).2.map Prod.fst
        = List.range' 0 ((chunk_text text 80000 2000 (text.length + 1)).getD []).length := by
  unfold generate_flashcards
  exact genLoop_zero_eq_none svc ((chunk_text text 80000 2000 (text.length + 1)).getD []) 0 []

theorem genLoop_none_cards (svc : Nat → Option (List Json)) :
    ∀ chunks i all_cards,
      (genLoop svc none chunks i all_cards).1
        = all_cards ++ ((List.range' i chunks.length).filterMap svc).flatten := by
  intro chunks
  induction chunks with
  | nil => intro i a; simp [genLoop]
  | cons c rest ih =>
    intro i a
    have hn : ¬ (mcTruthy none = true ∧ (none : Option Int).getD 0 - (a.length : Int) ≤ 0) := by
      simp [mcTruthy]
    simp only [genLoop]
    rw [if_neg hn]
    rcases hsvc : svc i with _ | cards
    · simp only [ih (i + 1) a, List.length_cons, List.range'_succ, List.filterMap_cons, hsvc]
    · simp only [ih (i + 1) (a ++ cards), List.length_cons, List.range'_succ,
        List.filterMap_cons, hsvc, List.flatten_cons, List.append_assoc]

/-- C10: `generate_flashcards` appends every element of each successfully
parsed JSON array to its result with no shape validation: with no budget
configured, the collected cards are exactly the concatenation of all parsed
arrays, whatever their elements are; in particular a response parsing to
the array `[{"back": "x"}]` — an object with no "front" key — lands in the
returned card list unchanged, and `write_tsv` on that list raises
`KeyError("front")`. -/
theorem generate_flashcards_unvalidated_cards :
    (∀ (svc : Nat → Option (List Json)) (text : List Char),
      (generate_flashcards svc none text).1
        = ((List.range' 0
            ((chunk_text text 80000 2000 (text.length + 1)).getD []).length).filterMap
              svc).flatten)
    ∧ (generate_flashcards (fun _ => some [Json.obj [("back".toList, Json.str ['x'])]])
        none ['c']).1
      = [Json.obj [("back".toList, Json.str ['x'])]]
    ∧ write_tsv [Json.obj [("back".toList, Json.str ['x'])]]
      = .error (.keyError ("front".toList)) := by
  refine ⟨?_, rfl, rfl⟩
  intro svc text
  unfold generate_flashcards
  simpa using genLoop_none_cards svc
    ((chunk_text text 80000 2000 (text.length + 1)).getD []) 0 []
